import Mathlib

/-!
Shallow embedding of the Token Space Colonization backend
(space_colonization/backend/server.py): the oracle client
(get_token_alternatives / extract_alternatives), the recursive tree builder
(build_token_tree), the linear and multi-width branch samplers, and the
websocket endpoint loop, together with theorems checking the specified
properties of each of them.
-/

set_option maxHeartbeats 1000000

namespace Tokinezer

/-- One token alternative, the dictionary with keys "token" and "prob"
built throughout the server.  The probability type is a parameter: the
builders and samplers carry probabilities around without computing on them,
and the oracle client instantiates it with the reals. -/
structure Alt (α : Type) where
  token : String
  prob : α
deriving DecidableEq

/-- The sentinel placeholder alternative used for padding, the literal
dictionary with token "?" and probability 0.0 in the source. -/
def placeholder {α : Type} [Zero α] : Alt α := ⟨"?", 0⟩

/-- The single-position payload found in the completion-probabilities event:
the selected token, its log-probability, and the reported alternatives,
with the defaults of the dict.get calls already applied. -/
structure TokenData where
  token : String
  logprob : ℚ
  top_logprobs : List (String × ℚ)
deriving DecidableEq

/-- The probability conversion used by the source, the expression
2.71828 ** logprob with the hard-coded decimal approximation of e,
modelled over the reals. -/
noncomputable def expApprox (logprob : ℚ) : ℝ := (2.71828 : ℝ) ^ (logprob : ℝ)

/-- Source extract_alternatives: the selected token first, then the
reported alternatives taken from the first n_alternatives entries of
top_logprobs (the truncation happens before the duplicate filter), every
entry whose token equals the selected one skipped, and a final truncation
of the whole list to n_alternatives entries. -/
noncomputable def extract_alternatives (token_data : TokenData) (n_alternatives : Nat) :
    List (Alt ℝ) :=
  let selected_token := token_data.token
  let selected_prob := expApprox token_data.logprob
  let alternatives : List (Alt ℝ) := [⟨selected_token, selected_prob⟩]
  let alternatives := (token_data.top_logprobs.take n_alternatives).foldl
    (fun acc alt =>
      if alt.1 ≠ selected_token then acc ++ [⟨alt.1, expApprox alt.2⟩] else acc)
    alternatives
  alternatives.take n_alternatives

/-- The oracle-client list construction exactly as the specification words
it: the selected token first with probability e ^ logprob, then the
reported alternatives in their given order with entries duplicating the
selected token skipped, and the list truncated to width entries. -/
noncomputable def extract_alternatives_spec (token_data : TokenData) (width : Nat) :
    List (Alt ℝ) :=
  ((⟨token_data.token, Real.exp (token_data.logprob : ℝ)⟩ : Alt ℝ) ::
    (token_data.top_logprobs.filter (fun alt => alt.1 ≠ token_data.token)).map
      (fun alt => (⟨alt.1, Real.exp (alt.2 : ℝ)⟩ : Alt ℝ))).take width

/-- One line of the oracle's event stream as get_token_alternatives sees it:
a line without the data marker, a data line whose JSON payload fails to
decode, or a decoded event that may or may not carry the
completion_probabilities array. -/
inductive StreamLine where
  | notData
  | malformed
  | event (cp : Option (List TokenData))
deriving DecidableEq

/-- The outcome of the single streamed oracle request: a transport-level
failure (connection error, timeout, or non-success status raised by
raise_for_status, all requests.RequestException) or a received stream of
lines. -/
inductive OracleOutcome where
  | transportError
  | stream (lines : List StreamLine)
deriving DecidableEq

/-- The exceptions that escape get_token_alternatives: a JSON decode error
on a malformed data line, or the IndexError of indexing an empty
completion_probabilities array.  Neither is a requests.RequestException, so
neither is caught by the except clause. -/
inductive OracleError where
  | jsonDecodeError
  | indexError
deriving DecidableEq

/-- The line-scanning loop of get_token_alternatives: skip lines without the
data marker and events without completion probabilities, fail on a malformed
payload or an empty probabilities array, and return the extracted
alternatives of the first matching event. -/
noncomputable def scan_lines (n_alternatives : Nat) :
    List StreamLine → Except OracleError (List (Alt ℝ))
  | [] => .ok []
  | StreamLine.notData :: rest => scan_lines n_alternatives rest
  | StreamLine.malformed :: _ => .error .jsonDecodeError
  | StreamLine.event none :: rest => scan_lines n_alternatives rest
  | StreamLine.event (some []) :: _ => .error .indexError
  | StreamLine.event (some (token_data :: _)) :: _ =>
      .ok (extract_alternatives token_data n_alternatives)

/-- Source get_token_alternatives: a transport failure is caught and turned
into an empty list, otherwise the event stream is scanned line by line. -/
noncomputable def get_token_alternatives (outcome : OracleOutcome) (n_alternatives : Nat) :
    Except OracleError (List (Alt ℝ)) :=
  match outcome with
  | .transportError => .ok []
  | .stream lines => scan_lines n_alternatives lines

/-- The skip-duplicates loop of extract_alternatives, rewritten as an
append of a filtered map. -/
theorem foldl_skip_dup (sel : String) :
    ∀ (l : List (String × ℚ)) (acc : List (Alt ℝ)),
      l.foldl
        (fun acc alt =>
          if alt.1 ≠ sel then acc ++ [⟨alt.1, expApprox alt.2⟩] else acc) acc
        = acc ++ (l.filter (fun alt => alt.1 ≠ sel)).map
            (fun alt => (⟨alt.1, expApprox alt.2⟩ : Alt ℝ))
  | [], acc => by simp
  | a :: l, acc => by
    rw [List.foldl_cons, foldl_skip_dup sel l]
    by_cases h : a.1 = sel <;> simp [h]

/-- The constant 2.71828 of the source is strictly below e, so the source's
probability conversion differs from e ^ logprob already at logprob = 1. -/
theorem expApprox_one_ne : expApprox 1 ≠ Real.exp 1 := by
  unfold expApprox
  have hcast : ((1 : ℚ) : ℝ) = 1 := by norm_num
  rw [hcast, Real.rpow_one]
  have h1 : (2.71828 : ℝ) < 2.7182818283 := by norm_num
  exact ne_of_lt (lt_trans h1 Real.exp_one_gt_d9)

/-- Concrete payload with the selected token repeated among the reported
alternatives. -/
def tdDup : TokenData := ⟨"a", 1, [("a", 0), ("a", 0), ("b", 0)]⟩

/-- Concrete payload with no reported alternatives and logprob 1. -/
def tdOne : TokenData := ⟨"a", 1, []⟩

/-- Claim C7 counterexample: the source truncates the reported alternatives
to width entries before filtering out duplicates of the selected token, so
on tdDup with width 2 it returns one entry while the specified construction
(filter first, truncate last) returns two; and the selected entry's
probability is 2.71828 ^ logprob, which differs from e ^ logprob at
logprob = 1. -/
theorem extract_alternatives_spec_cex :
    (extract_alternatives tdDup 2).length = 1 ∧
    (extract_alternatives_spec tdDup 2).length = 2 ∧
    extract_alternatives tdOne 1 ≠ extract_alternatives_spec tdOne 1 := by
  refine ⟨rfl, rfl, ?_⟩
  have hcode : extract_alternatives tdOne 1 = [⟨"a", expApprox 1⟩] := rfl
  have hspec : extract_alternatives_spec tdOne 1 = [⟨"a", Real.exp 1⟩] := by
    unfold extract_alternatives_spec tdOne
    norm_num
  rw [hcode, hspec]
  simp only [ne_eq, List.cons.injEq, Alt.mk.injEq, and_true, true_and]
  exact expApprox_one_ne

/-- Claim C7 (amended): the returned list is the selected token first with
probability 2.71828 ^ logprob (the source's approximation of e), followed by
the alternatives among the first width entries of the reported list, in
order, skipping entries whose token equals the selected token, the whole
list truncated to width entries. -/
theorem extract_alternatives_characterization (td : TokenData) (n : Nat) :
    extract_alternatives td n =
      ((⟨td.token, expApprox td.logprob⟩ : Alt ℝ) ::
        ((td.top_logprobs.take n).filter (fun alt => alt.1 ≠ td.token)).map
          (fun alt => (⟨alt.1, expApprox alt.2⟩ : Alt ℝ))).take n := by
  show (List.foldl _ [(⟨td.token, expApprox td.logprob⟩ : Alt ℝ)]
      (td.top_logprobs.take n)).take n = _
  rw [foldl_skip_dup td.token (td.top_logprobs.take n) _]
  simp

/-- Claim C3 counterexample: a malformed data line in the event stream makes
get_token_alternatives raise a JSON decode error instead of returning the
empty list (json.JSONDecodeError is not a requests.RequestException, so the
except clause does not catch it). -/
theorem malformed_payload_raises_cex :
    get_token_alternatives (.stream [StreamLine.malformed]) 5
      = .error .jsonDecodeError ∧
    (Except.error OracleError.jsonDecodeError : Except OracleError (List (Alt ℝ)))
      ≠ .ok [] := by
  refine ⟨rfl, ?_⟩
  intro h
  exact Except.noConfusion h

/-- Claim C3 (amended): a transport-level failure (network error, timeout or
non-success status) yields the empty list, and so does a stream in which no
event carries completion probabilities; but malformed payloads are not part
of this guarantee. -/
theorem oracle_failures_empty (n : Nat) (lines : List StreamLine)
    (h : ∀ l ∈ lines, l = StreamLine.notData ∨ l = StreamLine.event none) :
    get_token_alternatives .transportError n = .ok [] ∧
    get_token_alternatives (.stream lines) n = .ok [] := by
  refine ⟨rfl, ?_⟩
  show scan_lines n lines = .ok []
  induction lines with
  | nil => rfl
  | cons l rest ih =>
    rcases h l (List.mem_cons_self l rest) with hl | hl <;>
      subst hl <;>
      exact ih (fun x hx => h x (List.mem_cons_of_mem _ hx))

/-- Witness for claim C3: a stream consisting of a non-data line and an
event without completion probabilities yields the empty list, as does a
transport failure. -/
theorem oracle_failures_empty_witness :
    get_token_alternatives .transportError 5 = .ok [] ∧
    get_token_alternatives (.stream [StreamLine.notData, StreamLine.event none]) 5
      = .ok [] :=
  oracle_failures_empty 5 [StreamLine.notData, StreamLine.event none] (by decide)

/-- A node of the full token tree, the dictionary with keys "id", "token",
"prob" and "children" built by build_token_tree. -/
inductive TreeNode (α : Type) where
  | mk (id : Nat) (token : String) (prob : α) (children : List (TreeNode α))

/-- The "id" field of a tree node. -/
def TreeNode.id {α : Type} : TreeNode α → Nat
  | ⟨i, _, _, _⟩ => i

/-- The "token" field of a tree node. -/
def TreeNode.token {α : Type} : TreeNode α → String
  | ⟨_, t, _, _⟩ => t

/-- The "prob" field of a tree node. -/
def TreeNode.prob {α : Type} : TreeNode α → α
  | ⟨_, _, p, _⟩ => p

/-- The "children" field of a tree node. -/
def TreeNode.children {α : Type} : TreeNode α → List (TreeNode α)
  | ⟨_, _, _, cs⟩ => cs

/-- The per-alternative loop of build_token_tree, with the recursive call
on the child prompt abstracted as buildSub: each alternative becomes a child
node carrying the next id, the recursion is started at that id plus one, and
the children of the discarded subtree wrapper node are grafted onto the
child when non-empty. -/
def build_children {α : Type} (buildSub : String → Nat → Option (TreeNode α) × Nat)
    (prompt : String) : List (Alt α) → Nat → List (TreeNode α) × Nat
  | [], next_id => ([], next_id)
  | alt :: rest, next_id =>
    let child_prompt := prompt ++ alt.token
    let sub := buildSub child_prompt (next_id + 1)
    let child_children := match sub.1 with
      | some t => if t.children.isEmpty then [] else t.children
      | none => []
    let child : TreeNode α := ⟨next_id, alt.token, alt.prob, child_children⟩
    let siblings := build_children buildSub prompt rest sub.2
    (child :: siblings.1, siblings.2)

/-- build_token_tree by structural recursion on the remaining depth
(max_depth - current_depth); isRoot records current_depth == 0, which picks
the reserved marker token.  The oracle is indexed by the id passed to the
node (each call site receives a distinct id), which also absorbs the random
per-node width draw fed to get_token_alternatives. -/
def build_go {α : Type} [One α] (oracle : Nat → String → List (Alt α)) :
    Nat → String → Bool → Nat → Option (TreeNode α) × Nat
  | 0, _, _, node_id => (none, node_id)
  | remaining + 1, prompt, isRoot, node_id =>
    let alternatives := oracle node_id prompt
    if alternatives.isEmpty then (none, node_id)
    else
      let res := build_children (fun p n => build_go oracle remaining p false n)
        prompt alternatives (node_id + 1)
      (some ⟨node_id, if isRoot then "[ROOT]" else "", 1, res.1⟩, res.2)

/-- Source build_token_tree: returns the optional tree node together with
the next available id.  The guard current_depth >= max_depth of the source
is exactly remaining depth zero. -/
def build_token_tree {α : Type} [One α] (oracle : Nat → String → List (Alt α))
    (prompt : String) (max_depth current_depth node_id : Nat) :
    Option (TreeNode α) × Nat :=
  build_go oracle (max_depth - current_depth) prompt (current_depth == 0) node_id

mutual

/-- The node ids of a tree in depth-first pre-order. -/
def preorderIds {α : Type} : TreeNode α → List Nat
  | ⟨i, _, _, cs⟩ => i :: preorderIdsList cs

/-- The node ids of a forest, trees in order, each in pre-order. -/
def preorderIdsList {α : Type} : List (TreeNode α) → List Nat
  | [] => []
  | c :: cs => preorderIds c ++ preorderIdsList cs

end

mutual

/-- Every leaf of the tree is at depth at most n from this node. -/
def heightLeB {α : Type} : TreeNode α → Nat → Bool
  | ⟨_, _, _, cs⟩, 0 => cs.isEmpty
  | ⟨_, _, _, cs⟩, n + 1 => heightLeListB cs n

/-- Every leaf of every tree of the forest is at depth at most n from the
forest's roots. -/
def heightLeListB {α : Type} : List (TreeNode α) → Nat → Bool
  | [], _ => true
  | c :: cs, n => heightLeB c n && heightLeListB cs n

end

/-- Unfolding lemma: pre-order ids of a node. -/
theorem preorderIds_mk {α : Type} (i : Nat) (t : String) (p : α)
    (cs : List (TreeNode α)) :
    preorderIds (⟨i, t, p, cs⟩ : TreeNode α) = i :: preorderIdsList cs := by
  rw [preorderIds]

/-- Unfolding lemma: pre-order ids of a forest. -/
theorem preorderIdsList_cons {α : Type} (c : TreeNode α) (cs : List (TreeNode α)) :
    preorderIdsList (c :: cs) = preorderIds c ++ preorderIdsList cs := by
  rw [preorderIdsList]

/-- Unfolding lemma: pre-order ids of the empty forest. -/
theorem preorderIdsList_nil {α : Type} :
    preorderIdsList ([] : List (TreeNode α)) = [] := by
  rw [preorderIdsList]

/-- A node with no children satisfies every depth bound. -/
theorem heightLeB_nil {α : Type} (i : Nat) (t : String) (p : α) (n : Nat) :
    heightLeB (⟨i, t, p, []⟩ : TreeNode α) n = true := by
  cases n with
  | zero => rw [heightLeB]; rfl
  | succ n => rw [heightLeB, heightLeListB]

/-- The depth bound of a node only looks at its children. -/
theorem heightLeB_congr {α : Type} (i j : Nat) (t u : String) (p q : α)
    (cs : List (TreeNode α)) (n : Nat) :
    heightLeB (⟨i, t, p, cs⟩ : TreeNode α) n
      = heightLeB (⟨j, u, q, cs⟩ : TreeNode α) n := by
  cases n with
  | zero => rw [heightLeB, heightLeB]
  | succ n => rw [heightLeB, heightLeB]

/-- The depth bound of a node in terms of its children's bounds. -/
theorem heightLeB_succ {α : Type} (i : Nat) (t : String) (p : α)
    (cs : List (TreeNode α)) (n : Nat) :
    heightLeB (⟨i, t, p, cs⟩ : TreeNode α) (n + 1) = heightLeListB cs n := by
  rw [heightLeB]

/-- The depth bound of a forest is the conjunction over its trees. -/
theorem heightLeListB_all {α : Type} (cs : List (TreeNode α)) (n : Nat) :
    heightLeListB cs n = true ↔ ∀ c ∈ cs, heightLeB c n = true := by
  induction cs with
  | nil => simp [heightLeListB]
  | cons c cs ih =>
    rw [heightLeListB]
    simp [ih]

/-- The children grafted from a subtree are exactly the subtree's children:
the empty check of the source changes nothing. -/
theorem graft_eq {α : Type} (cs : List (TreeNode α)) :
    (if cs.isEmpty then ([] : List (TreeNode α)) else cs) = cs := by
  cases cs <;> rfl

/-- Invariant of the child-building loop: assuming the subtree builder
never decreases the id counter, roots its tree at the given id, keeps all
ids of the tree inside the consumed id interval in strictly increasing
pre-order, and respects the depth bound r, then the built forest consumes
ids monotonically, its concatenated pre-order ids are strictly increasing
and lie inside the consumed interval, and every tree of the forest respects
the depth bound r. -/
theorem build_children_inv {α : Type} (buildSub : String → Nat → Option (TreeNode α) × Nat)
    (r : Nat)
    (hsub : ∀ p n,
      n ≤ (buildSub p n).2 ∧
      ∀ t, (buildSub p n).1 = some t →
        t.id = n ∧ (preorderIds t).Pairwise (· < ·) ∧
        (∀ j ∈ preorderIds t, n ≤ j ∧ j < (buildSub p n).2) ∧
        heightLeB t r = true) :
    ∀ (alts : List (Alt α)) (prompt : String) (next_id : Nat),
      next_id ≤ (build_children buildSub prompt alts next_id).2 ∧
      (preorderIdsList (build_children buildSub prompt alts next_id).1).Pairwise (· < ·) ∧
      (∀ j ∈ preorderIdsList (build_children buildSub prompt alts next_id).1,
          next_id ≤ j ∧ j < (build_children buildSub prompt alts next_id).2) ∧
      ∀ c ∈ (build_children buildSub prompt alts next_id).1, heightLeB c r = true := by
  intro alts
  induction alts with
  | nil =>
    intro prompt next_id
    simp [build_children, preorderIdsList_nil]
  | cons alt rest ih =>
    intro prompt next_id
    obtain ⟨hsub1, hsub2⟩ := hsub (prompt ++ alt.token) (next_id + 1)
    obtain ⟨ih1, ih2, ih3, ih4⟩ :=
      ih prompt (buildSub (prompt ++ alt.token) (next_id + 1)).2
    set sub := buildSub (prompt ++ alt.token) (next_id + 1) with hsubdef
    set sib := build_children buildSub prompt rest sub.2 with hsibdef
    have hcc :
        ∃ cc : List (TreeNode α),
          build_children buildSub prompt (alt :: rest) next_id
            = ((⟨next_id, alt.token, alt.prob, cc⟩ : TreeNode α) :: sib.1, sib.2) ∧
          ((preorderIdsList cc).Pairwise (· < ·) ∧
            (∀ j ∈ preorderIdsList cc, next_id + 1 ≤ j ∧ j < sub.2) ∧
            heightLeB (⟨next_id, alt.token, alt.prob, cc⟩ : TreeNode α) r = true) := by
      rw [build_children]
      cases hmatch : sub.1 with
      | none =>
        refine ⟨[], by simp, ?_⟩
        simp [preorderIdsList_nil, heightLeB_nil]
      | some t =>
        obtain ⟨htid, htpw, htbnd, htht⟩ := hsub2 t hmatch
        refine ⟨t.children, by simp [graft_eq], ?_, ?_, ?_⟩
        · cases t with
          | mk ti tt tp tcs =>
            rw [preorderIds_mk] at htpw
            exact (List.pairwise_cons.mp htpw).2
        · intro j hj
          apply htbnd
          cases t with
          | mk ti tt tp tcs =>
            rw [preorderIds_mk]
            exact List.mem_cons_of_mem _ hj
        · cases t with
          | mk ti tt tp tcs =>
            rw [heightLeB_congr next_id ti alt.token tt alt.prob tp]
            exact htht
    obtain ⟨cc, heq, hccpw, hccbnd, hccht⟩ := hcc
    rw [heq]
    have hlt : next_id < sub.2 := Nat.lt_of_succ_le hsub1
    refine ⟨?_, ?_, ?_, ?_⟩
    · exact Nat.le_of_lt (Nat.lt_of_lt_of_le hlt ih1)
    · rw [preorderIdsList_cons, preorderIds_mk]
      rw [List.pairwise_append]
      refine ⟨?_, ih2, ?_⟩
      · rw [List.pairwise_cons]
        exact ⟨fun j hj => Nat.lt_of_succ_le (hccbnd j hj).1, hccpw⟩
      · intro a ha b hb
        have hb2 := (ih3 b hb).1
        rcases List.mem_cons.mp ha with ha | ha
        · subst ha; exact Nat.lt_of_lt_of_le hlt hb2
        · exact Nat.lt_of_lt_of_le (hccbnd a ha).2 hb2
    · intro j hj
      rw [preorderIdsList_cons, preorderIds_mk] at hj
      rcases List.mem_append.mp hj with hj | hj
      · rcases List.mem_cons.mp hj with hj | hj
        · subst hj
          exact ⟨Nat.le_refl _, Nat.lt_of_lt_of_le hlt ih1⟩
        · exact ⟨Nat.le_of_succ_le (hccbnd j hj).1,
            Nat.lt_of_lt_of_le (hccbnd j hj).2 ih1⟩
      · exact ⟨Nat.le_trans (Nat.le_of_lt hlt) (ih3 j hj).1, (ih3 j hj).2⟩
    · intro c hc
      rcases List.mem_cons.mp hc with hc | hc
      · subst hc; exact hccht
      · exact ih4 c hc

/-- Unfolding lemma for build_go at positive remaining depth. -/
theorem build_go_succ {α : Type} [One α] (oracle : Nat → String → List (Alt α))
    (r : Nat) (prompt : String) (isRoot : Bool) (node_id : Nat) :
    build_go oracle (r + 1) prompt isRoot node_id
      = if (oracle node_id prompt).isEmpty then (none, node_id)
        else
          ((some ⟨node_id, if isRoot then "[ROOT]" else "", 1,
            (build_children (fun p n => build_go oracle r p false n) prompt
              (oracle node_id prompt) (node_id + 1)).1⟩ : Option (TreeNode α)),
           (build_children (fun p n => build_go oracle r p false n) prompt
              (oracle node_id prompt) (node_id + 1)).2) := rfl

/-- Invariant of build_go: the id counter never decreases, and a returned
tree is rooted at the starting id, has strictly increasing pre-order ids all
inside the consumed id interval, and respects the remaining depth bound. -/
theorem build_go_inv {α : Type} [One α] (oracle : Nat → String → List (Alt α)) :
    ∀ (r : Nat) (prompt : String) (isRoot : Bool) (node_id : Nat),
      node_id ≤ (build_go oracle r prompt isRoot node_id).2 ∧
      ∀ t, (build_go oracle r prompt isRoot node_id).1 = some t →
        t.id = node_id ∧ (preorderIds t).Pairwise (· < ·) ∧
        (∀ j ∈ preorderIds t,
          node_id ≤ j ∧ j < (build_go oracle r prompt isRoot node_id).2) ∧
        heightLeB t r = true := by
  intro r
  induction r with
  | zero =>
    intro prompt isRoot node_id
    refine ⟨Nat.le_refl _, ?_⟩
    intro t ht
    exact absurd ht (by simp [build_go])
  | succ r ih =>
    intro prompt isRoot node_id
    rw [build_go_succ]
    by_cases halt : (oracle node_id prompt).isEmpty
    · rw [if_pos halt]
      refine ⟨Nat.le_refl _, ?_⟩
      intro t ht
      exact absurd ht (by simp)
    · rw [if_neg halt]
      obtain ⟨h1, h2, h3, h4⟩ :=
        build_children_inv (fun p n => build_go oracle r p false n) r
          (fun p n => ih p false n) (oracle node_id prompt) prompt (node_id + 1)
      refine ⟨Nat.le_of_succ_le h1, ?_⟩
      intro t ht
      injection ht with ht
      subst ht
      refine ⟨rfl, ?_, ?_, ?_⟩
      · rw [preorderIds_mk, List.pairwise_cons]
        exact ⟨fun j hj => Nat.lt_of_succ_le (h3 j hj).1, h2⟩
      · intro j hj
        rw [preorderIds_mk] at hj
        rcases List.mem_cons.mp hj with hj | hj
        · subst hj
          exact ⟨Nat.le_refl _, Nat.lt_of_succ_le h1⟩
        · exact ⟨Nat.le_of_succ_le (h3 j hj).1, (h3 j hj).2⟩
      · rw [heightLeB_succ]
        exact (heightLeListB_all _ _).mpr h4

/-- Claim C8: a tree returned by a full build (called as the endpoint calls
it, with current depth and starting id 0) has its root at id 0, node ids
that are unique and strictly increasing in pre-order, and every leaf at
depth at most max_depth from the root. -/
theorem tree_ids_preorder_depth {α : Type} [One α]
    (oracle : Nat → String → List (Alt α)) (prompt : String) (max_depth : Nat)
    (t : TreeNode α) (k : Nat)
    (h : build_token_tree oracle prompt max_depth 0 0 = (some t, k)) :
    t.id = 0 ∧ (preorderIds t).Nodup ∧ (preorderIds t).Pairwise (· < ·) ∧
    heightLeB t max_depth = true := by
  have hinv := build_go_inv oracle (max_depth - 0) prompt (0 == 0) 0
  rw [show build_go oracle (max_depth - 0) prompt (0 == 0) 0
      = build_token_tree oracle prompt max_depth 0 0 from rfl, h] at hinv
  obtain ⟨hid, hpw, _, hht⟩ := hinv.2 t rfl
  refine ⟨hid, ?_, hpw, by simpa using hht⟩
  exact hpw.imp Nat.ne_of_lt

/-- A fixed concrete oracle over rational probabilities, returning one
alternative for every prompt. -/
def oracleW8 : Nat → String → List (Alt ℚ) := fun _ _ => [⟨"a", 1⟩]

/-- The tree oracleW8 produces with max depth 1. -/
def treeW : TreeNode ℚ := ⟨0, "[ROOT]", 1, [⟨1, "a", 1, []⟩]⟩

/-- Witness for claim C8: the depth-1 build over oracleW8 yields treeW, whose
pre-order ids are strictly increasing from 0 and whose leaves sit at depth
at most 1. -/
theorem tree_ids_preorder_depth_witness :
    treeW.id = 0 ∧ (preorderIds treeW).Nodup ∧
    (preorderIds treeW).Pairwise (· < ·) ∧ heightLeB treeW 1 = true :=
  tree_ids_preorder_depth oracleW8 "p" 1 treeW 2 rfl

/-- Claim C2 counterexample: with max depth 0 the build returns no tree at
all, not the root sentinel node. -/
theorem maxDepth_zero_not_root_cex :
    (build_token_tree oracleW8 "p" 0 0 0).1
      ≠ some (⟨0, "[ROOT]", 1, []⟩ : TreeNode ℚ) := by
  intro h
  have hnone : (build_token_tree oracleW8 "p" 0 0 0).1 = none := rfl
  rw [hnone] at h
  exact Option.noConfusion h

/-- Claim C2 (amended): whenever max_depth ≤ current_depth — in particular
for a build requested with maxDepth = 0, which the endpoint starts at
current depth 0 — build_token_tree returns no tree and the untouched id
counter, for every oracle and prefix. -/
theorem maxDepth_zero_returns_none {α : Type} [One α]
    (oracle : Nat → String → List (Alt α)) (prompt : String)
    (max_depth current_depth node_id : Nat)
    (h : max_depth ≤ current_depth) :
    build_token_tree oracle prompt max_depth current_depth node_id
      = (none, node_id) := by
  unfold build_token_tree
  rw [Nat.sub_eq_zero_of_le h]
  rfl

/-- Witness for claim C2: the zero-depth build over oracleW8 returns no
tree and id counter 0. -/
theorem maxDepth_zero_returns_none_witness :
    build_token_tree oracleW8 "p" 0 0 0 = (none, 0) :=
  maxDepth_zero_returns_none oracleW8 "p" 0 0 0 (Nat.le_refl 0)

/-- The loop of the get_branch_tokens action: one oracle call per step with
width 1, appending either the first returned alternative (advancing the
prompt by its token) or the placeholder (leaving the prompt unchanged).
The second component records the prompt used at each step; the oracle is
indexed by the step number, since the external oracle is stateful and
distinct calls may disagree even on equal prompts. -/
def get_branch_tokens_go {α : Type} [Zero α] (oracle : Nat → String → List (Alt α)) :
    Nat → Nat → String → List (Alt α) × List String
  | _, 0, _ => ([], [])
  | i, count + 1, current_prompt =>
    match oracle i current_prompt with
    | [] =>
      let rest := get_branch_tokens_go oracle (i + 1) count current_prompt
      (placeholder :: rest.1, current_prompt :: rest.2)
    | a :: _ =>
      let rest := get_branch_tokens_go oracle (i + 1) count (current_prompt ++ a.token)
      (a :: rest.1, current_prompt :: rest.2)

/-- The token sequence produced by the get_branch_tokens action. -/
def get_branch_tokens {α : Type} [Zero α] (oracle : Nat → String → List (Alt α))
    (prompt : String) (count : Nat) : List (Alt α) :=
  (get_branch_tokens_go oracle 0 count prompt).1

/-- The prompt used at each step of the get_branch_tokens action. -/
def get_branch_prompts {α : Type} [Zero α] (oracle : Nat → String → List (Alt α))
    (prompt : String) (count : Nat) : List String :=
  (get_branch_tokens_go oracle 0 count prompt).2

/-- Both components of the linear sampling loop have exactly count entries. -/
theorem get_branch_tokens_go_length {α : Type} [Zero α]
    (oracle : Nat → String → List (Alt α)) :
    ∀ (count i : Nat) (cur : String),
      (get_branch_tokens_go oracle i count cur).1.length = count ∧
      (get_branch_tokens_go oracle i count cur).2.length = count := by
  intro count
  induction count with
  | zero => intro i cur; exact ⟨rfl, rfl⟩
  | succ count ih =>
    intro i cur
    rw [get_branch_tokens_go]
    cases oracle i cur with
    | nil => simpa using ih (i + 1) cur
    | cons a as => simpa using ih (i + 1) (cur ++ a.token)

/-- The first recorded prompt of a non-empty linear sampling run is the
starting prompt. -/
theorem get_branch_tokens_go_prompt_zero {α : Type} [Zero α]
    (oracle : Nat → String → List (Alt α)) (count i : Nat) (cur : String)
    (h : 0 < count) :
    (get_branch_tokens_go oracle i count cur).2.get? 0 = some cur := by
  cases count with
  | zero => exact absurd h (Nat.lt_irrefl 0)
  | succ count =>
    rw [get_branch_tokens_go]
    cases oracle i cur with
    | nil => rfl
    | cons a as => rfl

/-- Steps of the linear sampling loop whose oracle call returns nothing emit
the placeholder and pass their prompt on unchanged to the next step. -/
theorem get_branch_tokens_go_spec {α : Type} [Zero α]
    (oracle : Nat → String → List (Alt α)) :
    ∀ (count i : Nat) (cur : String) (m : Nat) (p : String),
      (get_branch_tokens_go oracle i count cur).2.get? m = some p →
      oracle (i + m) p = [] →
      (get_branch_tokens_go oracle i count cur).1.get? m
          = some (placeholder : Alt α) ∧
      (m + 1 < count →
        (get_branch_tokens_go oracle i count cur).2.get? (m + 1) = some p) := by
  intro count
  induction count with
  | zero =>
    intro i cur m p hp
    exact absurd hp (by simp [get_branch_tokens_go])
  | succ count ih =>
    intro i cur m p hp ho
    cases horacle : oracle i cur with
    | nil =>
      simp only [get_branch_tokens_go, horacle] at hp ⊢
      cases m with
      | zero =>
        simp only [List.get?] at hp
        injection hp with hp
        subst hp
        refine ⟨rfl, ?_⟩
        intro hlt
        have h0 : 0 < count := Nat.lt_of_succ_lt_succ hlt
        simpa using get_branch_tokens_go_prompt_zero oracle count (i + 1) cur h0
      | succ m =>
        simp only [List.get?] at hp ⊢
        have ho2 : oracle ((i + 1) + m) p = [] := by
          rw [show (i + 1) + m = i + (m + 1) from by omega]
          exact ho
        obtain ⟨hq1, hq2⟩ := ih (i + 1) cur m p hp ho2
        exact ⟨hq1, fun hlt => hq2 (Nat.lt_of_succ_lt_succ hlt)⟩
    | cons a as =>
      simp only [get_branch_tokens_go, horacle] at hp ⊢
      cases m with
      | zero =>
        simp only [List.get?] at hp
        injection hp with hp
        subst hp
        rw [Nat.add_zero, horacle] at ho
        exact absurd ho (by simp)
      | succ m =>
        simp only [List.get?] at hp ⊢
        have ho2 : oracle ((i + 1) + m) p = [] := by
          rw [show (i + 1) + m = i + (m + 1) from by omega]
          exact ho
        obtain ⟨hq1, hq2⟩ := ih (i + 1) (cur ++ a.token) m p hp ho2
        exact ⟨hq1, fun hlt => hq2 (Nat.lt_of_succ_lt_succ hlt)⟩

/-- Claim C5: for every requested count and every sequence of oracle
outcomes, linear path sampling returns exactly count entries; a step whose
oracle call returns no alternatives contributes the placeholder entry and
passes its prompt unchanged to the following step. -/
theorem linear_sampling_length_placeholder {α : Type} [Zero α]
    (oracle : Nat → String → List (Alt α)) (prompt : String) (n : Nat) :
    (get_branch_tokens oracle prompt n).length = n ∧
    ∀ i p, (get_branch_prompts oracle prompt n).get? i = some p →
      oracle i p = [] →
      (get_branch_tokens oracle prompt n).get? i = some (placeholder : Alt α) ∧
      (i + 1 < n → (get_branch_prompts oracle prompt n).get? (i + 1) = some p) := by
  refine ⟨(get_branch_tokens_go_length oracle n 0 prompt).1, ?_⟩
  intro i p hp ho
  exact get_branch_tokens_go_spec oracle n 0 prompt i p hp (by simpa using ho)

/-- A concrete oracle for the linear sampler: the call at step 1 fails, all
others return a single alternative. -/
def oracleW5 : Nat → String → List (Alt ℚ) :=
  fun i _ => if i = 1 then [] else [⟨"a", 1⟩]

/-- Witness for claim C5, the spec scenario of a failure at step 2 of 5: the
output has exactly 5 entries, entry 1 is the placeholder, and step 2 starts
from the same prompt as step 1. -/
theorem linear_sampling_length_placeholder_witness :
    (get_branch_tokens oracleW5 "p" 5).length = 5 ∧
    (get_branch_tokens oracleW5 "p" 5).get? 1 = some (placeholder : Alt ℚ) ∧
    (get_branch_prompts oracleW5 "p" 5).get? 2 = some "pa" := by
  have h := linear_sampling_length_placeholder oracleW5 "p" 5
  have h2 := h.2 1 "pa" (by decide) (by decide)
  exact ⟨h.1, h2.1, h2.2 (by decide)⟩

/-- A record of one oracle call made by the multi-width sampler: the step
index in the branches list, the cumulative prompt passed, and the width
requested. -/
structure OracleCall where
  step : Nat
  prompt : String
  width : Int
deriving DecidableEq

/-- The padding while-loop of the multi-width sampler: append placeholders
until the list has at least num_children entries. -/
def pad_alts {α : Type} [Zero α] (alts : List (Alt α)) (num_children : Int) :
    List (Alt α) :=
  alts ++ List.replicate (num_children.toNat - alts.length) placeholder

/-- The prompt advance of one multi-width step: when the width is positive
the prompt is extended by the token of the first entry of the padded
alternative list (the source's `if alts: current_prompt += alts[0]` after
padding), otherwise the step is skipped and the prompt is unchanged. -/
def multi_step_prompt {α : Type} [Zero α] (oracle : Nat → String → Int → List (Alt α))
    (i : Nat) (current_prompt : String) (num_children : Int) : String :=
  if 0 < num_children then
    match pad_alts (oracle i current_prompt num_children) num_children with
    | [] => current_prompt
    | a :: _ => current_prompt ++ a.token
  else current_prompt

/-- The loop of the get_branch_tokens_multi action: steps with non-positive
width are skipped outright; a positive-width step calls the oracle once,
pads the result to the width, contributes the first width padded entries to
the flat output, and advances the prompt by the first padded entry's token.
The second component records the oracle calls made; the oracle is indexed by
the step number, as the external oracle is stateful. -/
def get_branch_tokens_multi_go {α : Type} [Zero α]
    (oracle : Nat → String → Int → List (Alt α)) :
    Nat → List Int → String → List (Alt α) × List OracleCall
  | _, [], _ => ([], [])
  | i, num_children :: branches, current_prompt =>
    if 0 < num_children then
      let alts := pad_alts (oracle i current_prompt num_children) num_children
      let rest := get_branch_tokens_multi_go oracle (i + 1) branches
        (multi_step_prompt oracle i current_prompt num_children)
      (alts.take num_children.toNat ++ rest.1,
        ⟨i, current_prompt, num_children⟩ :: rest.2)
    else
      get_branch_tokens_multi_go oracle (i + 1) branches current_prompt

/-- Source get_branch_tokens_multi: the flat token list together with the
record of oracle calls made. -/
def get_branch_tokens_multi {α : Type} [Zero α]
    (oracle : Nat → String → Int → List (Alt α)) (prompt : String)
    (branches : List Int) : List (Alt α) × List OracleCall :=
  get_branch_tokens_multi_go oracle 0 branches prompt

/-- The cumulative prompt in effect after consuming the first k steps,
starting from step i. -/
def multiPrefixAux {α : Type} [Zero α] (oracle : Nat → String → Int → List (Alt α)) :
    Nat → List Int → String → Nat → String
  | _, _, cur, 0 => cur
  | _, [], cur, _ + 1 => cur
  | i, num_children :: branches, cur, k + 1 =>
    multiPrefixAux oracle (i + 1) branches
      (multi_step_prompt oracle i cur num_children) k

/-- The cumulative prompt used by the multi-width sampler at step k. -/
def multiPrefixAt {α : Type} [Zero α] (oracle : Nat → String → Int → List (Alt α))
    (prompt : String) (branches : List Int) (k : Nat) : String :=
  multiPrefixAux oracle 0 branches prompt k

/-- A positive-width step contributes exactly its width in entries; skipped
steps contribute nothing, so the flat output's length is the sum of the
positive widths. -/
theorem get_branch_tokens_multi_go_length {α : Type} [Zero α]
    (oracle : Nat → String → Int → List (Alt α)) :
    ∀ (branches : List Int) (i : Nat) (cur : String),
      (get_branch_tokens_multi_go oracle i branches cur).1.length
        = ((branches.filter (fun w => decide (0 < w))).map Int.toNat).sum := by
  intro branches
  induction branches with
  | nil => intro i cur; rfl
  | cons w rest ih =>
    intro i cur
    rw [get_branch_tokens_multi_go]
    by_cases hw : 0 < w
    · rw [if_pos hw]
      have hfil : List.filter (fun x => decide (0 < x)) (w :: rest)
          = w :: List.filter (fun x => decide (0 < x)) rest := by
        simp [List.filter_cons, hw]
      rw [hfil]
      simp only [List.length_append, List.length_take, List.map_cons,
        List.sum_cons, ih (i + 1)]
      have hpadlen : (pad_alts (oracle i cur w) w).length
          = (oracle i cur w).length + (w.toNat - (oracle i cur w).length) := by
        simp [pad_alts]
      rw [hpadlen]
      omega
    · rw [if_neg hw]
      have hfil : List.filter (fun x => decide (0 < x)) (w :: rest)
          = List.filter (fun x => decide (0 < x)) rest := by
        simp [List.filter_cons, hw]
      rw [hfil]
      exact ih (i + 1) cur

/-- Every recorded oracle call of the multi-width sampler comes from a
positive-width step of the branches list, at the matching offset. -/
theorem get_branch_tokens_multi_go_calls {α : Type} [Zero α]
    (oracle : Nat → String → Int → List (Alt α)) :
    ∀ (branches : List Int) (i : Nat) (cur : String) (c : OracleCall),
      c ∈ (get_branch_tokens_multi_go oracle i branches cur).2 →
      ∃ j w, branches.get? j = some w ∧ 0 < w ∧ c.step = i + j ∧ c.width = w := by
  intro branches
  induction branches with
  | nil =>
    intro i cur c hc
    exact absurd hc (by simp [get_branch_tokens_multi_go])
  | cons w rest ih =>
    intro i cur c hc
    rw [get_branch_tokens_multi_go] at hc
    by_cases hw : 0 < w
    · rw [if_pos hw] at hc
      simp only [List.mem_cons] at hc
      rcases hc with hc | hc
      · subst hc
        exact ⟨0, w, rfl, hw, rfl, rfl⟩
      · obtain ⟨j, w2, hj, hw2, hstep, hwidth⟩ := ih (i + 1) _ c hc
        exact ⟨j + 1, w2, by simpa using hj, hw2, by omega, hwidth⟩
    · rw [if_neg hw] at hc
      obtain ⟨j, w2, hj, hw2, hstep, hwidth⟩ := ih (i + 1) cur c hc
      exact ⟨j + 1, w2, by simpa using hj, hw2, by omega, hwidth⟩

/-- The prompt after k+1 steps is the step function applied to the prompt
after k steps with that step's width. -/
theorem multiPrefixAux_succ {α : Type} [Zero α]
    (oracle : Nat → String → Int → List (Alt α)) :
    ∀ (branches : List Int) (j i : Nat) (cur : String) (w : Int),
      branches.get? j = some w →
      multiPrefixAux oracle i branches cur (j + 1)
        = multi_step_prompt oracle (i + j)
            (multiPrefixAux oracle i branches cur j) w := by
  intro branches
  induction branches with
  | nil =>
    intro j i cur w hj
    exact absurd hj (by simp)
  | cons w0 rest ih =>
    intro j i cur w hj
    cases j with
    | zero =>
      simp only [List.get?] at hj
      injection hj with hj
      subst hj
      rw [multiPrefixAux, multiPrefixAux, multiPrefixAux]
      rw [Nat.add_zero]
    | succ j =>
      simp only [List.get?] at hj
      rw [multiPrefixAux, multiPrefixAux]
      rw [ih j (i + 1) _ w hj]
      rw [show (i + 1) + j = i + (j + 1) from by omega]

/-- Every positive-width step of the branches list gives rise to a recorded
oracle call at the matching cumulative prompt. -/
theorem get_branch_tokens_multi_go_trace {α : Type} [Zero α]
    (oracle : Nat → String → Int → List (Alt α)) :
    ∀ (branches : List Int) (j i : Nat) (cur : String) (w : Int),
      branches.get? j = some w → 0 < w →
      (⟨i + j, multiPrefixAux oracle i branches cur j, w⟩ : OracleCall)
        ∈ (get_branch_tokens_multi_go oracle i branches cur).2 := by
  intro branches
  induction branches with
  | nil =>
    intro j i cur w hj
    exact absurd hj (by simp)
  | cons w0 rest ih =>
    intro j i cur w hj hw
    rw [get_branch_tokens_multi_go]
    cases j with
    | zero =>
      simp only [List.get?] at hj
      injection hj with hj
      subst hj
      rw [if_pos hw]
      rw [multiPrefixAux]
      simp
    | succ j =>
      simp only [List.get?] at hj
      have hmem := ih j (i + 1) (multi_step_prompt oracle i cur w0) w hj hw
      rw [multiPrefixAux]
      by_cases hw0 : 0 < w0
      · rw [if_pos hw0]
        refine List.mem_cons_of_mem _ ?_
        rw [show i + (j + 1) = (i + 1) + j from by omega]
        exact hmem
      · rw [if_neg hw0]
        rw [show i + (j + 1) = (i + 1) + j from by omega]
        have hstep : multi_step_prompt oracle i cur w0 = cur := by
          rw [multi_step_prompt, if_neg hw0]
        rw [hstep] at hmem ⊢
        exact hmem

/-- Claim C6: in multi-width branch sampling, when steps i and i+1 both
carry positive widths and the oracle returns a non-empty list at step i, the
cumulative prompt used for the call at step i+1 is the prompt of step i
extended by the token of the first alternative returned at step i — and the
sampler really makes the step-(i+1) call with that prompt. -/
theorem multi_prefix_advances_first_alt {α : Type} [Zero α]
    (oracle : Nat → String → Int → List (Alt α)) (prompt : String)
    (branches : List Int) (i : Nat) (w₁ w₂ : Int) (a : Alt α)
    (tail : List (Alt α))
    (h1 : branches.get? i = some w₁) (hw1 : 0 < w₁)
    (h2 : branches.get? (i + 1) = some w₂) (hw2 : 0 < w₂)
    (ho : oracle i (multiPrefixAt oracle prompt branches i) w₁ = a :: tail) :
    multiPrefixAt oracle prompt branches (i + 1)
      = multiPrefixAt oracle prompt branches i ++ a.token ∧
    (⟨i + 1, multiPrefixAt oracle prompt branches i ++ a.token, w₂⟩ : OracleCall)
      ∈ (get_branch_tokens_multi oracle prompt branches).2 := by
  have hsucc := multiPrefixAux_succ oracle branches i 0 prompt w₁ h1
  rw [Nat.zero_add] at hsucc
  have hstep : multi_step_prompt oracle i
      (multiPrefixAux oracle 0 branches prompt i) w₁
      = multiPrefixAux oracle 0 branches prompt i ++ a.token := by
    rw [multi_step_prompt, if_pos hw1]
    rw [show multiPrefixAux oracle 0 branches prompt i
        = multiPrefixAt oracle prompt branches i from rfl, ho]
    simp [pad_alts]
  have hpre : multiPrefixAt oracle prompt branches (i + 1)
      = multiPrefixAt oracle prompt branches i ++ a.token := by
    rw [multiPrefixAt, hsucc, hstep]
    rfl
  refine ⟨hpre, ?_⟩
  have hmem := get_branch_tokens_multi_go_trace oracle branches (i + 1) 0 prompt w₂ h2 hw2
  rw [Nat.zero_add] at hmem
  rw [show multiPrefixAux oracle 0 branches prompt (i + 1)
      = multiPrefixAt oracle prompt branches (i + 1) from rfl, hpre] at hmem
  exact hmem

/-- A concrete multi-width oracle over rational probabilities returning a
single alternative with token "x" for every call. -/
def oracleW6 : Nat → String → Int → List (Alt ℚ) := fun _ _ _ => [⟨"x", 1⟩]

/-- Witness for claim C6: with widths [1, 1], the prompt of step 1 is the
prompt of step 0 extended by "x", and the recorded step-1 call uses it. -/
theorem multi_prefix_advances_first_alt_witness :
    multiPrefixAt oracleW6 "p" [1, 1] 1
      = multiPrefixAt oracleW6 "p" [1, 1] 0 ++ "x" ∧
    (⟨1, multiPrefixAt oracleW6 "p" [1, 1] 0 ++ "x", 1⟩ : OracleCall)
      ∈ (get_branch_tokens_multi oracleW6 "p" [1, 1]).2 :=
  multi_prefix_advances_first_alt oracleW6 "p" [1, 1] 0 1 1 ⟨"x", 1⟩ []
    rfl (by decide) rfl (by decide) rfl

/-- Claim C10: a step of the multi-width sampler whose width is not positive
is skipped: the flat output's length is the sum of the strictly positive
widths, no oracle call is recorded for the skipped step, and the cumulative
prompt does not advance across it. -/
theorem multi_skip_nonpositive {α : Type} [Zero α]
    (oracle : Nat → String → Int → List (Alt α)) (prompt : String)
    (branches : List Int) (i : Nat) (w : Int)
    (h1 : branches.get? i = some w) (hw : w ≤ 0) :
    (get_branch_tokens_multi oracle prompt branches).1.length
      = ((branches.filter (fun x => decide (0 < x))).map Int.toNat).sum ∧
    (∀ c ∈ (get_branch_tokens_multi oracle prompt branches).2, c.step ≠ i) ∧
    multiPrefixAt oracle prompt branches (i + 1)
      = multiPrefixAt oracle prompt branches i := by
  refine ⟨get_branch_tokens_multi_go_length oracle branches 0 prompt, ?_, ?_⟩
  · intro c hc hci
    obtain ⟨j, w2, hj, hw2, hstep, hwidth⟩ :=
      get_branch_tokens_multi_go_calls oracle branches 0 prompt c hc
    have hj2 : j = i := by omega
    subst hj2
    rw [h1] at hj
    injection hj with hj
    subst hj
    omega
  · have hsucc := multiPrefixAux_succ oracle branches i 0 prompt w h1
    rw [Nat.zero_add] at hsucc
    have hid : multi_step_prompt oracle i
        (multiPrefixAux oracle 0 branches prompt i) w
        = multiPrefixAux oracle 0 branches prompt i := by
      rw [multi_step_prompt, if_neg (by omega)]
    rw [multiPrefixAt, hsucc, hid]
    rfl

/-- Witness for claim C10: with widths [0, 2] the output has 2 entries, no
call is recorded at step 0, and the prompt at step 1 equals the prompt at
step 0. -/
theorem multi_skip_nonpositive_witness :
    (get_branch_tokens_multi oracleW6 "p" [0, 2]).1.length
      = ((([0, 2] : List Int).filter (fun x => decide (0 < x))).map Int.toNat).sum ∧
    (∀ c ∈ (get_branch_tokens_multi oracleW6 "p" [0, 2]).2, c.step ≠ 0) ∧
    multiPrefixAt oracleW6 "p" [0, 2] 1 = multiPrefixAt oracleW6 "p" [0, 2] 0 :=
  multi_skip_nonpositive oracleW6 "p" [0, 2] 0 0 rfl (by decide)

/-- A decoded inbound request, discriminated by its action field; unknown
covers any action string matching none of the handled branches, with the
default field values of the source already applied. -/
inductive Request where
  | get_tokens (prompt : String) (n_alternatives : Nat) (temperature : ℚ)
  | build_tree (prompt : String) (max_depth : Nat)
  | get_branch_tokens (prompt : String) (count : Nat)
  | get_branch_tokens_multi (prompt : String) (branches : List Int)
  | get_options (prompt : String) (count : Nat)
  | ping
  | unknown
deriving DecidableEq

/-- One inbound websocket message: either text that fails to decode into a
request (json.loads raises, or the decoded value has no usable action), or a
decoded request. -/
inductive Inbound where
  | malformed
  | request (r : Request)
deriving DecidableEq

/-- One outbound websocket message, one constructor per "type" value the
endpoint ever sends. -/
inductive Outbound (α : Type) where
  | status (message : String)
  | tokens (prompt : String) (alternatives : List (Alt α))
  | tree (prompt : String) (t : Option (TreeNode α))
  | branch_tokens (tokens : List (Alt α))
  | token_options (options : List (Alt α))
  | pong

/-- The "type" field of an outbound message. -/
def typeTag {α : Type} : Outbound α → String
  | .status _ => "status"
  | .tokens _ _ => "tokens"
  | .tree _ _ => "tree"
  | .branch_tokens _ => "branch_tokens"
  | .token_options _ => "token_options"
  | .pong => "pong"

/-- The environment of one endpoint run: the views of get_token_alternatives
each action uses.  oracle is the direct call (prompt, n_alternatives,
temperature); the other three are the call-indexed abstractions the builders
consume (the tree builder's also absorbs the random per-node width draw). -/
structure Env (α : Type) where
  oracle : String → Nat → ℚ → List (Alt α)
  treeOracle : Nat → String → List (Alt α)
  linOracle : Nat → String → List (Alt α)
  multiOracle : Nat → String → Int → List (Alt α)

/-- The get_options branch of the endpoint: one oracle call at the default
temperature, padding with placeholders while the list is shorter than
count, and truncation to count entries. -/
def get_options {α : Type} [Zero α] (oracle : String → Nat → ℚ → List (Alt α))
    (prompt : String) (count : Nat) : List (Alt α) :=
  let alts := oracle prompt count (7 / 10)
  let alts := alts ++ List.replicate (count - alts.length) placeholder
  alts.take count

/-- One iteration of the websocket loop: the ordered list of messages the
endpoint sends in response to one decoded request. -/
def handle_request {α : Type} [Zero α] [One α] (env : Env α) :
    Request → List (Outbound α)
  | .get_tokens prompt n temperature =>
    [.tokens prompt (env.oracle prompt n temperature)]
  | .build_tree prompt max_depth =>
    [.status "Building token tree...",
     .tree prompt (build_token_tree env.treeOracle prompt max_depth 0 0).1]
  | .get_branch_tokens prompt count =>
    [.status ("Fetching " ++ toString count ++ " tokens..."),
     .branch_tokens (get_branch_tokens env.linOracle prompt count)]
  | .get_branch_tokens_multi prompt branches =>
    [.status ("Fetching tokens for " ++ toString branches.length
        ++ " branch points (" ++ toString branches.sum ++ " total)..."),
     .branch_tokens (get_branch_tokens_multi env.multiOracle prompt branches).1]
  | .get_options prompt count =>
    [.token_options (get_options env.oracle prompt count)]
  | .ping => [.pong]
  | .unknown => []

/-- The websocket endpoint loop over a finite inbound message sequence:
requests are handled strictly one after the other, in arrival order; an
undecodable message raises out of the loop, where the blanket handler closes
the connection, leaving any later messages unprocessed.  Returns the
messages sent and whether the endpoint closed the connection. -/
def websocket_endpoint {α : Type} [Zero α] [One α] (env : Env α) :
    List Inbound → List (Outbound α) × Bool
  | [] => ([], false)
  | .malformed :: _ => ([], true)
  | .request r :: rest =>
    let out := websocket_endpoint env rest
    (handle_request env r ++ out.1, out.2)

/-- Every message the endpoint can send carries one of the six known type
tags; in particular none is the "busy" tag. -/
theorem handle_request_typeTag {α : Type} [Zero α] [One α] (env : Env α)
    (r : Request) :
    ∀ m ∈ handle_request env r, typeTag m ≠ "busy" := by
  cases r <;> intro m hm <;>
    simp only [handle_request, List.mem_cons, List.not_mem_nil, or_false] at hm <;>
    rcases hm with rfl | rfl <;> simp only [typeTag] <;> decide

/-- A concrete endpoint environment over rational probabilities whose every
oracle view returns a single alternative. -/
def envW : Env ℚ where
  oracle := fun _ _ _ => [⟨"a", 1⟩]
  treeOracle := fun _ _ => [⟨"a", 1⟩]
  linOracle := fun _ _ => [⟨"a", 1⟩]
  multiOracle := fun _ _ _ => [⟨"a", 1⟩]

/-- Claim C1 counterexample: two consecutive full-build requests on the same
connection both run to completion (status then tree, twice, in order) and no
message with type "busy" is ever sent. -/
theorem two_builds_no_busy_cex :
    ((websocket_endpoint envW
        [.request (.build_tree "p" 1), .request (.build_tree "p" 1)]).1.map typeTag)
      = ["status", "tree", "status", "tree"] ∧
    "busy" ∉ ((websocket_endpoint envW
        [.request (.build_tree "p" 1), .request (.build_tree "p" 1)]).1.map typeTag) := by
  refine ⟨rfl, ?_⟩
  intro h
  have heq : ((websocket_endpoint envW
      [.request (.build_tree "p" 1), .request (.build_tree "p" 1)]).1.map typeTag)
      = ["status", "tree", "status", "tree"] := rfl
  rw [heq] at h
  exact absurd h (by decide)

/-- Claim C1 (amended): the endpoint has no "busy" response; a second build
request arriving while the first build is pending is queued on the
connection and processed to completion after the first, strictly in arrival
order, never concurrently — the sequential receive/handle loop composes the
two responses one after the other. -/
theorem sequential_builds_no_busy {α : Type} [Zero α] [One α] (env : Env α)
    (r₁ r₂ : Request) :
    websocket_endpoint env [.request r₁, .request r₂]
      = (handle_request env r₁ ++ handle_request env r₂, false) ∧
    ∀ m ∈ (websocket_endpoint env [.request r₁, .request r₂]).1,
      typeTag m ≠ "busy" := by
  constructor
  · rw [websocket_endpoint, websocket_endpoint, websocket_endpoint]
    simp
  · intro m hm
    rw [websocket_endpoint, websocket_endpoint, websocket_endpoint] at hm
    simp only [List.append_nil, List.mem_append] at hm
    rcases hm with hm | hm
    · exact handle_request_typeTag env r₁ m hm
    · exact handle_request_typeTag env r₂ m (by simpa using hm)

/-- Witness for claim C1: two pings compose sequentially into two pongs, an
open connection, and no "busy" tag. -/
theorem sequential_builds_no_busy_witness :
    websocket_endpoint envW [.request .ping, .request .ping]
      = (handle_request envW .ping ++ handle_request envW .ping, false) ∧
    typeTag (Outbound.pong : Outbound ℚ) ≠ "busy" := by
  have h := sequential_builds_no_busy envW .ping .ping
  exact ⟨h.1, h.2 Outbound.pong
    (by simp [websocket_endpoint, handle_request])⟩

/-- Claim C4 counterexample: an undecodable inbound message makes the
endpoint send nothing at all — no typed error — and close the connection,
so a following ping is never answered. -/
theorem malformed_inbound_closes_cex :
    (websocket_endpoint envW [Inbound.malformed, .request .ping]).1 = [] ∧
    (websocket_endpoint envW [Inbound.malformed, .request .ping]).2 = true :=
  ⟨rfl, rfl⟩

/-- Claim C4 (amended): an undecodable inbound message is answered with no
message at all and the connection is closed (the decode error falls into the
blanket exception handler, which calls close), abandoning the remaining
inbound messages; a decoded message with an unrecognized action is silently
ignored — no error message — and the connection stays open. -/
theorem malformed_inbound_behavior {α : Type} [Zero α] [One α] (env : Env α)
    (rest : List Inbound) :
    websocket_endpoint env (.malformed :: rest) = ([], true) ∧
    websocket_endpoint env (.request .unknown :: rest)
      = websocket_endpoint env rest := by
  constructor
  · rw [websocket_endpoint]
  · rw [websocket_endpoint]
    simp [handle_request]

/-- Claim C9: the get_options action answers with exactly count options —
padded with probability-zero placeholders whenever the oracle returned fewer
than count alternatives, truncated and never longer than count. -/
theorem get_options_padding {α : Type} [Zero α] [One α] (env : Env α)
    (prompt : String) (count : Nat) :
    handle_request env (.get_options prompt count)
      = [.token_options (get_options env.oracle prompt count)] ∧
    (get_options env.oracle prompt count).length = count ∧
    ((env.oracle prompt count (7 / 10)).length < count →
      get_options env.oracle prompt count
        = env.oracle prompt count (7 / 10)
          ++ List.replicate (count - (env.oracle prompt count (7 / 10)).length)
              (placeholder : Alt α)) := by
  refine ⟨rfl, ?_, ?_⟩
  · rw [get_options]
    simp only [List.length_take, List.length_append, List.length_replicate]
    omega
  · intro hlt
    simp only [get_options]
    rw [List.take_of_length_le
      (by simp only [List.length_append, List.length_replicate]; omega)]

/-- Witness for claim C9: with an oracle returning a single alternative and
count 3, the response is that alternative followed by two placeholders. -/
theorem get_options_padding_witness :
    handle_request envW (.get_options "p" 3)
      = [.token_options (get_options envW.oracle "p" 3)] ∧
    (get_options envW.oracle "p" 3).length = 3 ∧
    get_options envW.oracle "p" 3
      = envW.oracle "p" 3 (7 / 10)
        ++ List.replicate (3 - (envW.oracle "p" 3 (7 / 10)).length)
            (placeholder : Alt ℚ) := by
  have h := get_options_padding envW "p" 3
  exact ⟨h.1, h.2.1, h.2.2 (by decide)⟩

end Tokinezer
